import Mathlib

/-!
# Verification of the kitchinv streaming photo-analysis pipeline

Shallow embedding of the core of `vbonduro/kitchinv`:

* `internal/vision/parse.go` — the line parser (`ParseLine`, `ParseResponse`);
* `internal/vision/ollama` and `internal/vision/claude` — the streaming
  adapters' goroutine bodies, modelled as pure functions from the sequence of
  received wire chunks (plus a terminal read-error flag) to the sequence of
  `StreamEvent`s sent on the channel;
* `internal/service/area_service.go` — `UploadPhotoStream`, modelled as a
  state-passing function over an explicit store state, an environment fixing
  each collaborator call's outcome, and an explicit operation trace;
* `internal/web/handler_upload.go` — `handleStreamPhoto`, the SSE forwarder,
  including the coupling of the background worker to the bounded out channel
  when the forwarder stops draining it.

Strings are modelled as `List Char`.  Go's `strings.TrimSpace` is modelled
over the ASCII whitespace characters recognised by `unicode.IsSpace`
(space, `\t`, `\n`, `\v`, `\f`, `\r`); none of the verified properties
involve the additional non-ASCII space code points.  An adapter's channel is
modelled by the full list of events sent before close; the orchestrator's
bounded out channel (capacity 16) is modelled by the budget of sends its
worker can still complete once the forwarder stops receiving — a send with
no free slot blocks the goroutine forever.  The exact moment cancellation is
observed is timing-dependent and appears as an explicit parameter (the
number of events drained before the forwarder returns).
-/

namespace Kitchinv

/-! ## Whitespace and trimming (Go `strings.TrimSpace`) -/

/-- ASCII whitespace as recognised by Go's `unicode.IsSpace`. -/
def isSpace (c : Char) : Bool :=
  c = ' ' || c = '\t' || c = '\n' || c = Char.ofNat 11 || c = Char.ofNat 12 || c = '\r'

/-- Drop leading whitespace. -/
def trimLeft (l : List Char) : List Char :=
  l.dropWhile isSpace

/-- Drop trailing whitespace. -/
def trimRight (l : List Char) : List Char :=
  (l.reverse.dropWhile isSpace).reverse

/-- Go `strings.TrimSpace`: drop whitespace from both ends. -/
def trim (l : List Char) : List Char :=
  trimRight (trimLeft l)

/-- Go `strings.Split(s, sep)` for a single-character separator: the list of
fields between occurrences of `sep`, with one more field than separators. -/
def splitOn (sep : Char) : List Char → List (List Char)
  | [] => [[]]
  | c :: cs =>
    let r := splitOn sep cs
    if c = sep then [] :: r else (c :: r.headI) :: r.tail

/-- Last element of a list of fields, defaulting to the empty field. -/
def lastD (l : List (List Char)) : List Char :=
  l.getLast?.getD []

/-- Apply a function to the last field of a field list. -/
def modifyLast (f : List Char → List Char) (l : List (List Char)) : List (List Char) :=
  (l.reverse.modifyHead f).reverse

/-! ## The line parser (`internal/vision/parse.go`) -/

/-- `vision.DetectedItem`: transient output of parsing. -/
structure DetectedItem where
  Name : List Char
  Quantity : List Char
  Notes : List Char
deriving DecidableEq, Repr

/-- `vision.ParseLine`: parse a single `name | quantity | notes` line.
Returns `none` for blank lines, for lines without a pipe separator, and for
lines whose name field trims to empty. -/
def ParseLine (line : List Char) : Option DetectedItem :=
  let t := trim line
  if t = [] then none
  else if t.contains '|' = false then none
  else
    let parts := splitOn '|' t
    let name := trim (parts.getD 0 [])
    let quantity := if 2 ≤ parts.length then trim (parts.getD 1 []) else []
    let notes := if 3 ≤ parts.length then trim (parts.getD 2 []) else []
    if name = [] then none else some ⟨name, quantity, notes⟩

/-- `vision.ParseResponse`: parse a whole vision-model response by feeding
each newline-separated line to `ParseLine` and appending the items found. -/
def ParseResponse (raw : List Char) : List DetectedItem :=
  (splitOn '\n' raw).foldl
    (fun items line =>
      match ParseLine line with
      | some item => items ++ [item]
      | none => items) []

/-! ## Streaming adapters (`internal/vision/ollama`, `internal/vision/claude`)

Each adapter's goroutine is modelled as a pure function from the scanned wire
lines (plus whether the scanner ends with a read error) to the list of events
it sends on its channel before closing it.  The runs are modelled for a
request whose context is never cancelled; cancellation is a real-time
behaviour outside this embedding. -/

/-- `vision.StreamEvent`: exactly one of a detected item or an error. -/
inductive StreamEvent where
  | item (d : DetectedItem)
  | err (msg : List Char)
deriving DecidableEq, Repr

/-- Shared per-line emission of both adapters: trim the completed line, feed
it through `vision.ParseLine`, and emit one item event when a detection is
produced. -/
def lineEvents (line : List Char) : List StreamEvent :=
  match ParseLine (trim line) with
  | some it => [StreamEvent.item it]
  | none => []

/-- Shared token-accumulation loop of both adapters: characters are appended
to the line buffer; each newline completes a line which is parsed and emitted.
Returns the emitted events and the remaining buffer. -/
def feedChars (buf : List Char) : List Char → List StreamEvent × List Char
  | [] => ([], buf)
  | c :: cs =>
    if c = '\n' then
      let rest := feedChars [] cs
      (lineEvents buf ++ rest.1, rest.2)
    else feedChars (buf ++ [c]) cs

/-- One scanned line of the Ollama newline-delimited JSON stream: a chunk
that fails to unmarshal, or a `{"response": ..., "done": ...}` chunk. -/
inductive OllamaChunk where
  | malformed
  | chunk (response : List Char) (done : Bool)
deriving DecidableEq, Repr

/-- Goroutine body of `OllamaAnalyzer.AnalyzeStream`: per scanned chunk, a
malformed chunk emits one error event and stops; otherwise the chunk's text
is accumulated, a done-chunk flushes the trailing buffer and stops, and a
read error after the last scanned chunk emits one error event. -/
def OllamaAnalyzeStream (buf : List Char) (readErr : Bool) :
    List OllamaChunk → List StreamEvent
  | [] => if readErr then [StreamEvent.err ("read stream".data)] else []
  | OllamaChunk.malformed :: _ => [StreamEvent.err ("parse chunk".data)]
  | OllamaChunk.chunk resp done :: rest =>
    let fed := feedChars buf resp
    if done then fed.1 ++ lineEvents fed.2
    else fed.1 ++ OllamaAnalyzeStream fed.2 readErr rest

/-- Whether an Ollama stream run hits a transport failure (malformed chunk,
or read error with no prior done-chunk). -/
def ollamaFailure (readErr : Bool) : List OllamaChunk → Bool
  | [] => readErr
  | OllamaChunk.malformed :: _ => true
  | OllamaChunk.chunk _ done :: rest =>
    if done then false else ollamaFailure readErr rest

/-- One scanned SSE line of the Claude stream: a line without the `data: `
marker, the `[DONE]` sentinel, a data line that fails to unmarshal, a valid
event of a type other than a text delta, or a text delta. -/
inductive ClaudeLine where
  | notData
  | doneMark
  | malformed
  | otherEvent
  | delta (text : List Char)
deriving DecidableEq, Repr

/-- Trailing-line flush of `ClaudeAnalyzer.AnalyzeStream`: a non-empty
trimmed buffer is parsed once. -/
def claudeFlush (buf : List Char) : List StreamEvent :=
  if trim buf = [] then [] else lineEvents buf

/-- Goroutine body of `ClaudeAnalyzer.AnalyzeStream`: non-data, malformed and
non-delta lines are skipped; delta text is accumulated; `[DONE]` flushes the
buffer and stops; scanner exhaustion flushes the buffer and then reports a
read error, if any, as one error event. -/
def ClaudeAnalyzeStream (buf : List Char) (readErr : Bool) :
    List ClaudeLine → List StreamEvent
  | [] =>
    claudeFlush buf ++
      (if readErr then [StreamEvent.err ("read claude stream".data)] else [])
  | ClaudeLine.doneMark :: _ => claudeFlush buf
  | ClaudeLine.notData :: rest => ClaudeAnalyzeStream buf readErr rest
  | ClaudeLine.malformed :: rest => ClaudeAnalyzeStream buf readErr rest
  | ClaudeLine.otherEvent :: rest => ClaudeAnalyzeStream buf readErr rest
  | ClaudeLine.delta text :: rest =>
    let fed := feedChars buf text
    fed.1 ++ ClaudeAnalyzeStream fed.2 readErr rest

/-- Whether a Claude stream run ends with a read error (a `[DONE]` sentinel
stops the scan before the error is observed). -/
def claudeFailure (readErr : Bool) : List ClaudeLine → Bool
  | [] => readErr
  | ClaudeLine.doneMark :: _ => false
  | _ :: rest => claudeFailure readErr rest

/-- Whether a stream event carries an error. -/
def isErr : StreamEvent → Bool
  | StreamEvent.err _ => true
  | StreamEvent.item _ => false

/-! ## The orchestrator (`internal/service/area_service.go`) -/

/-- `domain.Photo` (fields used by the streaming path). -/
structure Photo where
  ID : Nat
  AreaID : Nat
  StorageKey : List Char
  MimeType : List Char
deriving DecidableEq, Repr

/-- `domain.Item`. -/
structure Item where
  ID : Nat
  AreaID : Nat
  PhotoID : Option Nat
  Name : List Char
  Quantity : List Char
  Notes : List Char
deriving DecidableEq, Repr

/-- Persistent state touched by `UploadPhotoStream`: blob-storage keys, photo
records and item records. -/
structure St where
  blobs : List (List Char)
  photos : List Photo
  items : List Item
deriving DecidableEq, Repr

/-- Outcome of the area lookup. -/
inductive AreaLookup where
  | errL
  | notFound
  | found
deriving DecidableEq, Repr

/-- Environment fixing the outcome of each collaborator call of one
`UploadPhotoStream` call: the stores and the vision adapter are external, so
their results are inputs of the model.  `itemCreate` maps the index of the
create call and the detected fields to the stored record's id and fields
(`none` models a failed insert). -/
structure Env where
  lookup : AreaLookup
  streaming : Bool
  saveRes : Option (List Char)
  photoCreateRes : Option Nat
  analyzeRes : Option (List StreamEvent)
  deleteItemsOk : Bool
  photoDeleteOk : Bool
  blobDeleteOk : Bool
  itemCreate : Nat → DetectedItem → Option (Nat × DetectedItem)

/-- Operations performed against collaborators, in call order. -/
inductive Op where
  | getArea
  | save
  | photoCreate
  | analyzeStream (ok : Bool)
  | deleteItems
  | itemCreate
  | photoDelete
  | blobDelete
deriving DecidableEq, Repr

/-- Go-style result triple of `UploadPhotoStream`. -/
structure UploadResult where
  photo : Option Photo
  events : Option (List StreamEvent)
  err : Option (List Char)
deriving DecidableEq

/-- A context is modelled by whether it is cancelled; a store call under a
cancelled context fails. -/
def ctxLookup (ctx : Bool) (env : Env) : AreaLookup :=
  if ctx then AreaLookup.errL else env.lookup

def ctxSave (ctx : Bool) (env : Env) : Option (List Char) :=
  if ctx then none else env.saveRes

def ctxPhotoCreate (ctx : Bool) (env : Env) : Option Nat :=
  if ctx then none else env.photoCreateRes

def ctxAnalyze (ctx : Bool) (env : Env) : Option (List StreamEvent) :=
  if ctx then none else env.analyzeRes

def ctxDeleteItems (ctx : Bool) (env : Env) : Bool :=
  if ctx then false else env.deleteItemsOk

def ctxItemCreate (ctx : Bool) (env : Env) :
    Nat → DetectedItem → Option (Nat × DetectedItem) :=
  if ctx then fun _ _ => none else env.itemCreate

/-- Background goroutine of `UploadPhotoStream`: drain the adapter's events;
an error event is forwarded unchanged and the worker stops; an item event is
persisted (a failed create is logged and skipped) and an event carrying the
persisted record's fields is forwarded.  Returns the forwarded events, the
final state and the trace of item-create calls. -/
def streamWorker (create : Nat → DetectedItem → Option (Nat × DetectedItem))
    (areaID pid k : Nat) (st : St) :
    List StreamEvent → List StreamEvent × St × List Op
  | [] => ([], st, [])
  | StreamEvent.err m :: _ => ([StreamEvent.err m], st, [])
  | StreamEvent.item d :: rest =>
    match create k d with
    | none =>
      let r := streamWorker create areaID pid (k + 1) st rest
      (r.1, r.2.1, Op.itemCreate :: r.2.2)
    | some (iid, stored) =>
      let newItem : Item :=
        ⟨iid, areaID, some pid, stored.Name, stored.Quantity, stored.Notes⟩
      let r := streamWorker create areaID pid (k + 1)
        { st with items := st.items ++ [newItem] } rest
      (StreamEvent.item stored :: r.1, r.2.1, Op.itemCreate :: r.2.2)

/-- `AreaService.UploadPhotoStream`: look up the area, require a streaming
adapter, save the blob, create the photo record, start the adapter stream
(rolling back the photo record and blob on setup failure), delete the area's
old items, and run the background worker.  Returns the Go result triple, the
final state, and the trace of collaborator calls. -/
def UploadPhotoStream (env : Env) (ctx : Bool) (areaID : Nat)
    (imageData mimeType : List Char) (st : St) :
    UploadResult × St × List Op :=
  match ctxLookup ctx env with
  | AreaLookup.errL =>
    (⟨none, none, some ("failed to get area".data)⟩, st, [Op.getArea])
  | AreaLookup.notFound =>
    (⟨none, none, some ("area not found".data)⟩, st, [Op.getArea])
  | AreaLookup.found =>
    if env.streaming = false then
      (⟨none, none, some ("vision adapter does not support streaming".data)⟩,
        st, [Op.getArea])
    else
      match ctxSave ctx env with
      | none =>
        (⟨none, none, some ("failed to save photo".data)⟩, st,
          [Op.getArea, Op.save])
      | some storageKey =>
        let st1 : St := { st with blobs := storageKey :: st.blobs }
        match ctxPhotoCreate ctx env with
        | none =>
          let st2 : St :=
            if env.blobDeleteOk then
              { st1 with blobs := st1.blobs.erase storageKey }
            else st1
          (⟨none, none, some ("failed to create photo record".data)⟩, st2,
            [Op.getArea, Op.save, Op.photoCreate, Op.blobDelete])
        | some pid =>
          let photo : Photo := ⟨pid, areaID, storageKey, mimeType⟩
          let st2 : St := { st1 with photos := photo :: st1.photos }
          match ctxAnalyze ctx env with
          | none =>
            let st3 : St :=
              if env.photoDeleteOk then
                { st2 with photos := st2.photos.eraseP (fun p => p.ID == pid) }
              else st2
            let st4 : St :=
              if env.blobDeleteOk then
                { st3 with blobs := st3.blobs.erase storageKey }
              else st3
            (⟨none, none, some ("failed to start vision stream".data)⟩, st4,
              [Op.getArea, Op.save, Op.photoCreate, Op.analyzeStream false,
                Op.photoDelete, Op.blobDelete])
          | some rawEvents =>
            if ctxDeleteItems ctx env = false then
              (⟨some photo, none, some ("failed to delete old items".data)⟩,
                st2,
                [Op.getArea, Op.save, Op.photoCreate, Op.analyzeStream true,
                  Op.deleteItems])
            else
              let st3 : St :=
                { st2 with items := st2.items.filter (fun it => !(it.AreaID == areaID)) }
              let r := streamWorker (ctxItemCreate ctx env) areaID pid 0 st3 rawEvents
              (⟨some photo, some r.1, none⟩, r.2.1,
                [Op.getArea, Op.save, Op.photoCreate, Op.analyzeStream true,
                  Op.deleteItems] ++ r.2.2)

/-- The pre-stream failure triggers enumerated by claim C1. -/
def SetupFailure (env : Env) : Prop :=
  env.lookup = AreaLookup.errL ∨ env.lookup = AreaLookup.notFound ∨
    env.streaming = false ∨ env.saveRes = none ∨ env.photoCreateRes = none ∨
    env.analyzeRes = none

/-- Trace scan: `true` iff no `deleteItems` operation occurs before a
successful `analyzeStream`. -/
def deleteAfterAnalyze : List Op → Bool
  | [] => true
  | Op.deleteItems :: _ => false
  | Op.analyzeStream true :: _ => true
  | _ :: rest => deleteAfterAnalyze rest

/-- Specification-side description of the worker's forwarded stream
(spec §4.3 step 7): each item event whose persist succeeds contributes the
persisted record's fields, in order; a persist failure is skipped; an error
event is forwarded unchanged and ends the stream. -/
def workerOutSpec (create : Nat → DetectedItem → Option (Nat × DetectedItem))
    (k : Nat) : List StreamEvent → List StreamEvent
  | [] => []
  | StreamEvent.err m :: _ => [StreamEvent.err m]
  | StreamEvent.item d :: rest =>
    match create k d with
    | none => workerOutSpec create (k + 1) rest
    | some (_, stored) => StreamEvent.item stored :: workerOutSpec create (k + 1) rest

/-- Specification-side description of the records the worker persists, in
order, each linked to the new photo. -/
def workerItemsSpec (create : Nat → DetectedItem → Option (Nat × DetectedItem))
    (areaID pid k : Nat) : List StreamEvent → List Item
  | [] => []
  | StreamEvent.err _ :: _ => []
  | StreamEvent.item d :: rest =>
    match create k d with
    | none => workerItemsSpec create areaID pid (k + 1) rest
    | some (iid, stored) =>
      ⟨iid, areaID, some pid, stored.Name, stored.Quantity, stored.Notes⟩ ::
        workerItemsSpec create areaID pid (k + 1) rest

/-! ## The forwarder (`internal/web/handler_upload.go`) -/

/-- One message successfully pushed to the browser by `handleStreamPhoto`:
an SSE data message carrying an item's fields, or the terminal
`event: done` marker carrying an empty object. -/
inductive WireMsg where
  | data (name quantity notes : List Char)
  | done
deriving DecidableEq, Repr

/-- Forwarding loop of `handleStreamPhoto` over the orchestrator's events:
per event, stop silently if the request context is cancelled or the event is
an error or a write fails; otherwise push one data message; when the channel
closes, write the done marker.  `cancelled` is the request context's state
during the loop, `clientOk` whether response writes succeed.  Returns the
messages successfully written. -/
def forwardEvents (cancelled clientOk : Bool) : List StreamEvent → List WireMsg
  | [] => if clientOk then [WireMsg.done] else []
  | ev :: rest =>
    if cancelled then []
    else
      match ev with
      | StreamEvent.err _ => []
      | StreamEvent.item d =>
        if clientOk then
          WireMsg.data d.Name d.Quantity d.Notes ::
            forwardEvents cancelled clientOk rest
        else []

/-- `context.WithoutCancel`: the derived context never observes the request's
cancellation. -/
def withoutCancel (reqCancelled : Bool) : Bool := false

/-- Buffer capacity of the orchestrator's out channel
(`make(chan vision.StreamEvent, 16)`, area_service.go:213). -/
def outChanBuffer : Nat := 16

/-- Final state of the background worker of `UploadPhotoStream`
(area_service.go:219-235) when the forwarder has stopped draining the out
channel: `slots` is the number of sends the worker can still complete (the
events already received by the forwarder plus the 16-slot buffer).  Each item
is persisted by `itemStore.Create` *before* the corresponding send, so when a
send finds no free slot the goroutine blocks forever on `out <-` with that
item persisted and every later event unprocessed.  An error event makes the
worker stop after its send attempt, which changes no store state either
way. -/
def streamWorkerBlocking
    (create : Nat → DetectedItem → Option (Nat × DetectedItem))
    (areaID pid k slots : Nat) (st : St) : List StreamEvent → St
  | [] => st
  | StreamEvent.err _ :: _ => st
  | StreamEvent.item d :: rest =>
    match create k d with
    | none => streamWorkerBlocking create areaID pid (k + 1) slots st rest
    | some (iid, stored) =>
      let st' : St := { st with items := st.items ++
        [⟨iid, areaID, some pid, stored.Name, stored.Quantity, stored.Notes⟩] }
      match slots with
      | 0 => st'
      | slots' + 1 => streamWorkerBlocking create areaID pid (k + 1) slots' st' rest

/-- The synchronous part of `UploadPhotoStream` (area_service.go:165-211,
everything executed before the worker goroutine starts): the Go result's
error, the store state at the moment the goroutine would start, and — when
streaming was accepted and the old items deleted — the new photo's ID
together with the adapter's raw events. -/
def UploadPhotoStreamSetup (env : Env) (ctx : Bool) (areaID : Nat)
    (imageData mimeType : List Char) (st : St) :
    Option (List Char) × St × Option (Nat × List StreamEvent) :=
  match ctxLookup ctx env with
  | AreaLookup.errL => (some ("failed to get area".data), st, none)
  | AreaLookup.notFound => (some ("area not found".data), st, none)
  | AreaLookup.found =>
    if env.streaming = false then
      (some ("vision adapter does not support streaming".data), st, none)
    else
      match ctxSave ctx env with
      | none => (some ("failed to save photo".data), st, none)
      | some storageKey =>
        let st1 : St := { st with blobs := storageKey :: st.blobs }
        match ctxPhotoCreate ctx env with
        | none =>
          let st2 : St :=
            if env.blobDeleteOk then
              { st1 with blobs := st1.blobs.erase storageKey }
            else st1
          (some ("failed to create photo record".data), st2, none)
        | some pid =>
          let photo : Photo := ⟨pid, areaID, storageKey, mimeType⟩
          let st2 : St := { st1 with photos := photo :: st1.photos }
          match ctxAnalyze ctx env with
          | none =>
            let st3 : St :=
              if env.photoDeleteOk then
                { st2 with photos := st2.photos.eraseP (fun p => p.ID == pid) }
              else st2
            let st4 : St :=
              if env.blobDeleteOk then
                { st3 with blobs := st3.blobs.erase storageKey }
              else st3
            (some ("failed to start vision stream".data), st4, none)
          | some rawEvents =>
            if ctxDeleteItems ctx env = false then
              (some ("failed to delete old items".data), st2, none)
            else
              let st3 : St :=
                { st2 with items := st2.items.filter (fun it => !(it.AreaID == areaID)) }
              (none, st3, some (pid, rawEvents))

/-- `handleStreamPhoto` after request validation (part_020:92-171): exactly
one `UploadPhotoStream` call under a context detached from the request
(`context.WithoutCancel`), then the forwarding loop under the request's own
context.  With an uncancelled request and a connected client the forwarder
drains the out channel to close, so the worker never blocks and runs to
completion.  When the request is cancelled or a write fails, the forwarder
returns (part_020:139-160) and nothing else ever receives from the out
channel, so the worker completes only `drained + 16` further sends —
`drained` is the timing-dependent number of events the forwarder received
before returning — and then blocks forever (see `streamWorkerBlocking`).
The forwarder's own writes stop before the worker blocks, so the wire output
is computed from the worker's (at most fully produced) event list.  Returns
the wire messages and the final store state. -/
def handleStreamPhoto (env : Env) (reqCancelled clientOk : Bool)
    (drained : Nat) (areaID : Nat) (imageData mimeType : List Char)
    (st : St) : List WireMsg × St :=
  let setup :=
    UploadPhotoStreamSetup env (withoutCancel reqCancelled) areaID imageData
      mimeType st
  match setup.2.2 with
  | none => ([], setup.2.1)
  | some (pid, rawEvents) =>
    let create := ctxItemCreate (withoutCancel reqCancelled) env
    let outEvents := (streamWorker create areaID pid 0 setup.2.1 rawEvents).1
    if reqCancelled = false ∧ clientOk = true then
      (forwardEvents reqCancelled clientOk outEvents,
        (streamWorker create areaID pid 0 setup.2.1 rawEvents).2.1)
    else
      (forwardEvents reqCancelled clientOk outEvents,
        streamWorkerBlocking create areaID pid 0 (drained + outChanBuffer)
          setup.2.1 rawEvents)

/-- A concrete environment whose area lookup reports "not found" (used to
witness setup-failure claims). -/
def envW : Env :=
  ⟨AreaLookup.notFound, true, some ("k".data), some 5, some [], true, true,
    true, fun _ _ => none⟩

/-- A concrete initial state with one photo and two items in area 7. -/
def stW : St :=
  ⟨[("old".data)], [⟨1, 7, "old".data, "image/png".data⟩],
    [⟨40, 7, some 1, "Milk".data, [], []⟩,
      ⟨41, 7, some 1, "Butter".data, [], []⟩]⟩

/-- A concrete item-create outcome function: the first create fails, later
creates succeed and may rewrite the stored fields. -/
def createW : Nat → DetectedItem → Option (Nat × DetectedItem) :=
  fun k d => if k = 0 then none else some (100 + k, d)

/-- An adapter stream of 20 detected items — enough to overrun the 16-slot
out channel once the forwarder stops draining it. -/
def evs20 : List StreamEvent :=
  List.replicate 20 (StreamEvent.item ⟨"Milk".data, "1".data, []⟩)

/-- A fully healthy environment: streaming accepted, adapter emits `evs20`,
every item create succeeds. -/
def envS : Env :=
  ⟨AreaLookup.found, true, some ("k".data), some 5, some evs20, true, true,
    true, fun k d => some (1000 + k, d)⟩

theorem trimLeft_nil : trimLeft [] = [] := rfl

theorem trimRight_nil : trimRight [] = [] := rfl

theorem trim_nil : trim [] = [] := rfl

theorem trimLeft_cons_of_space {c : Char} (h : isSpace c = true) (l : List Char) :
    trimLeft (c :: l) = trimLeft l := by
  simp [trimLeft, List.dropWhile_cons, h]

theorem trimLeft_cons_of_not_space {c : Char} (h : isSpace c = false) (l : List Char) :
    trimLeft (c :: l) = c :: l := by
  simp [trimLeft, List.dropWhile_cons, h]

theorem trimLeft_idem (l : List Char) : trimLeft (trimLeft l) = trimLeft l := by
  induction l with
  | nil => rfl
  | cons c cs ih =>
    by_cases h : isSpace c = true
    · rw [trimLeft_cons_of_space h, ih]
    · rw [trimLeft_cons_of_not_space (by simpa using h),
        trimLeft_cons_of_not_space (by simpa using h)]

theorem trimRight_eq_reverse_trimLeft (l : List Char) :
    trimRight l = (trimLeft l.reverse).reverse := rfl

theorem trimLeft_reverse (l : List Char) :
    trimLeft l.reverse = (trimRight l).reverse := by
  simp [trimRight_eq_reverse_trimLeft]

theorem trimRight_idem (l : List Char) : trimRight (trimRight l) = trimRight l := by
  simp [trimRight_eq_reverse_trimLeft, trimLeft_idem]

/-- `dropWhile` over an append. -/
theorem dropWhile_append (p : Char → Bool) (xs ys : List Char) :
    (xs ++ ys).dropWhile p =
      if xs.dropWhile p = [] then ys.dropWhile p else xs.dropWhile p ++ ys := by
  induction xs with
  | nil => simp
  | cons c cs ih =>
    by_cases h : p c = true
    · simpa [List.dropWhile_cons, h] using ih
    · simp [List.dropWhile_cons, h]

theorem mem_of_mem_trimLeft {c : Char} {l : List Char} (h : c ∈ trimLeft l) : c ∈ l :=
  (List.dropWhile_sublist _).subset h

theorem mem_trimLeft_of_mem {c : Char} {l : List Char} (hc : isSpace c = false)
    (h : c ∈ l) : c ∈ trimLeft l := by
  induction l with
  | nil => simp at h
  | cons a as ih =>
    by_cases ha : isSpace a = true
    · rw [trimLeft_cons_of_space ha]
      rcases List.mem_cons.mp h with rfl | h
      · rw [hc] at ha; cases ha
      · exact ih h
    · rw [trimLeft_cons_of_not_space (by simpa using ha)]
      exact h

theorem mem_trimLeft_iff {c : Char} {l : List Char} (hc : isSpace c = false) :
    c ∈ trimLeft l ↔ c ∈ l :=
  ⟨mem_of_mem_trimLeft, mem_trimLeft_of_mem hc⟩

theorem mem_trimRight_iff {c : Char} {l : List Char} (hc : isSpace c = false) :
    c ∈ trimRight l ↔ c ∈ l := by
  rw [trimRight_eq_reverse_trimLeft, List.mem_reverse, mem_trimLeft_iff hc,
    List.mem_reverse]

theorem mem_trim_iff {c : Char} {l : List Char} (hc : isSpace c = false) :
    c ∈ trim l ↔ c ∈ l := by
  rw [trim, mem_trimRight_iff hc, mem_trimLeft_iff hc]

/-- Trailing whitespace is invisible to `trim`. -/
theorem trim_append_space {c : Char} (h : isSpace c = true) (l : List Char) :
    trim (l ++ [c]) = trim l := by
  unfold trim trimRight trimLeft
  rw [dropWhile_append]
  by_cases hl : l.dropWhile isSpace = []
  · simp [hl, List.dropWhile_cons, h]
  · rw [if_neg hl, List.reverse_append]
    simp only [List.reverse_cons, List.reverse_nil, List.nil_append,
      List.singleton_append, List.dropWhile_cons, h]
    simp

theorem trim_cons_space {c : Char} (h : isSpace c = true) (l : List Char) :
    trim (c :: l) = trim l := by
  unfold trim
  rw [trimLeft_cons_of_space h]

theorem trim_trimLeft (l : List Char) : trim (trimLeft l) = trim l := by
  unfold trim
  rw [trimLeft_idem]

/-! ## `splitOn` (Go `strings.Split` with a one-character separator) -/

theorem splitOn_nil (sep : Char) : splitOn sep [] = [[]] := rfl

theorem splitOn_cons_sep (sep : Char) (cs : List Char) :
    splitOn sep (sep :: cs) = [] :: splitOn sep cs := by
  simp [splitOn]

theorem splitOn_cons_ne {sep c : Char} (h : c ≠ sep) (cs : List Char) :
    splitOn sep (c :: cs) =
      (c :: (splitOn sep cs).headI) :: (splitOn sep cs).tail := by
  simp [splitOn, h]

theorem splitOn_ne_nil (sep : Char) (l : List Char) : splitOn sep l ≠ [] := by
  cases l with
  | nil => simp [splitOn]
  | cons c cs =>
    by_cases h : c = sep
    · subst h; simp [splitOn_cons_sep]
    · simp [splitOn_cons_ne h]

theorem headI_cons_tail_of_ne_nil {α : Type} [Inhabited α] {l : List α}
    (h : l ≠ []) : l.headI :: l.tail = l := by
  cases l with
  | nil => cases h rfl
  | cons a as => rfl

theorem lastD_singleton (a : List Char) : lastD [a] = a := rfl

theorem lastD_cons_of_ne_nil (a : List Char) {l : List (List Char)} (h : l ≠ []) :
    lastD (a :: l) = lastD l := by
  cases l with
  | nil => cases h rfl
  | cons b bs => simp [lastD, List.getLast?_cons_cons]

theorem lastD_concat (l : List (List Char)) (a : List Char) :
    lastD (l ++ [a]) = a := by
  simp [lastD, List.getLast?_concat]

theorem dropLast_cons_of_ne_nil' (a : List Char) {l : List (List Char)}
    (h : l ≠ []) : (a :: l).dropLast = a :: l.dropLast := by
  cases l with
  | nil => cases h rfl
  | cons b bs => rfl

theorem dropLast_append_lastD {l : List (List Char)} (h : l ≠ []) :
    l.dropLast ++ [lastD l] = l := by
  induction l with
  | nil => cases h rfl
  | cons a as ih =>
    cases as with
    | nil => simp [lastD]
    | cons b bs =>
      rw [dropLast_cons_of_ne_nil' a (by simp),
        lastD_cons_of_ne_nil a (by simp), List.cons_append,
        ih (by simp)]

/-- How `splitOn` distributes over an append: the last field of the left part
is glued to the first field of the right part. -/
theorem splitOn_append (sep : Char) (xs ys : List Char) :
    splitOn sep (xs ++ ys) =
      (splitOn sep xs).dropLast ++
        (lastD (splitOn sep xs) ++ (splitOn sep ys).headI) ::
          (splitOn sep ys).tail := by
  induction xs with
  | nil =>
    simp only [List.nil_append, splitOn_nil, List.dropLast_single, lastD_singleton]
    exact (headI_cons_tail_of_ne_nil (splitOn_ne_nil sep ys)).symm
  | cons c cs ih =>
    by_cases h : c = sep
    · rw [h]
      rw [List.cons_append, splitOn_cons_sep, splitOn_cons_sep, ih]
      have hne : splitOn sep cs ≠ [] := splitOn_ne_nil sep cs
      rw [dropLast_cons_of_ne_nil' _ hne, lastD_cons_of_ne_nil _ hne]
      simp
    · rw [List.cons_append, splitOn_cons_ne h, splitOn_cons_ne h, ih]
      rcases hS : splitOn sep cs with _ | ⟨s0, S⟩
      · exact absurd hS (splitOn_ne_nil sep cs)
      · rcases S with _ | ⟨s1, S'⟩
        · simp [lastD]
        · have hne : (s1 :: S' : List (List Char)) ≠ [] := by simp
          rw [List.headI_cons, List.tail_cons,
            dropLast_cons_of_ne_nil' _ hne, lastD_cons_of_ne_nil _ hne,
            dropLast_cons_of_ne_nil' (c :: s0) hne]
          simp [List.headI]
          exact (lastD_cons_of_ne_nil _ hne).symm

/-- `splitOn` of a reversed list: the reversed list of reversed fields. -/
theorem splitOn_reverse (sep : Char) (l : List Char) :
    splitOn sep l.reverse = ((splitOn sep l).map List.reverse).reverse := by
  induction l with
  | nil => simp [splitOn_nil]
  | cons c cs ih =>
    rw [List.reverse_cons, splitOn_append, ih]
    by_cases h : c = sep
    · rw [h]
      have h1 : splitOn sep [sep] = [[], []] := by simp [splitOn]
      rw [h1, splitOn_cons_sep]
      have hSrev : ((splitOn sep cs).map List.reverse).reverse ≠ [] := by
        simp [splitOn_ne_nil sep cs]
      simp only [List.headI, List.tail_cons, List.append_nil, List.map_cons,
        List.reverse_cons, List.reverse_nil, List.nil_append]
      conv_rhs => rw [← dropLast_append_lastD hSrev]
      simp
    · have h1 : splitOn sep [c] = [[c]] := by simp [splitOn, h]
      rw [h1, splitOn_cons_ne h]
      rcases hS : splitOn sep cs with _ | ⟨s0, S⟩
      · exact absurd hS (splitOn_ne_nil sep cs)
      · simp only [List.headI, List.tail_cons, List.map_cons, List.reverse_cons,
          List.dropLast_concat, lastD_concat]

/-! ## Fields of a trimmed line versus fields of the raw line -/

/-- Left-trimming a line only left-trims its first `sep`-field, provided the
separator is not itself whitespace. -/
theorem splitOn_trimLeft {sep : Char} (hsep : isSpace sep = false) (l : List Char) :
    splitOn sep (trimLeft l) = (splitOn sep l).modifyHead trimLeft := by
  induction l with
  | nil => simp [trimLeft, splitOn_nil]
  | cons c cs ih =>
    by_cases hc : isSpace c = true
    · have hne : c ≠ sep := by
        intro e; rw [e, hsep] at hc; cases hc
      rw [trimLeft_cons_of_space hc, ih, splitOn_cons_ne hne]
      rcases hQ : splitOn sep cs with _ | ⟨f, fs⟩
      · exact absurd hQ (splitOn_ne_nil sep cs)
      · simp [List.headI, trimLeft_cons_of_space hc]
    · rw [trimLeft_cons_of_not_space (by simpa using hc)]
      by_cases he : c = sep
      · rw [he, splitOn_cons_sep]
        simp [trimLeft]
      · rw [splitOn_cons_ne he]
        simp [trimLeft_cons_of_not_space (by simpa using hc)]

/-- Right-trimming a line only right-trims its last `sep`-field. -/
theorem splitOn_trimRight {sep : Char} (hsep : isSpace sep = false) (l : List Char) :
    splitOn sep (trimRight l) = modifyLast trimRight (splitOn sep l) := by
  rw [trimRight_eq_reverse_trimLeft, splitOn_reverse, splitOn_trimLeft hsep,
    splitOn_reverse]
  induction (splitOn sep l) using List.reverseRecOn with
  | nil => rfl
  | append_singleton I a _ =>
    simp only [modifyLast, List.map_append, List.reverse_append, List.map_cons,
      List.map_nil, List.reverse_cons, List.reverse_nil, List.nil_append,
      List.singleton_append, List.modifyHead_cons, List.map_map]
    simp [trimRight_eq_reverse_trimLeft, Function.comp_def]

theorem splitOn_trim {sep : Char} (hsep : isSpace sep = false) (l : List Char) :
    splitOn sep (trim l) =
      modifyLast trimRight ((splitOn sep l).modifyHead trimLeft) := by
  unfold trim
  rw [splitOn_trimRight hsep, splitOn_trimLeft hsep]

/-- The head of a left-trimmed line is never whitespace. -/
theorem not_space_head_trimLeft :
    ∀ (l : List Char) (c : Char) (m : List Char),
      trimLeft l = c :: m → isSpace c = false := by
  intro l
  induction l with
  | nil => intro c m h; cases h
  | cons a as ih =>
    intro c m h
    by_cases ha : isSpace a = true
    · rw [trimLeft_cons_of_space ha] at h
      exact ih c m h
    · rw [trimLeft_cons_of_not_space (by simpa using ha)] at h
      cases h
      simpa using ha

theorem dropWhile_eq_nil_of_all {p : Char → Bool} {l : List Char}
    (h : ∀ x ∈ l, p x = true) : l.dropWhile p = [] := by
  induction l with
  | nil => rfl
  | cons a as ih =>
    rw [List.dropWhile_cons, if_pos (h a (by simp))]
    exact ih fun x hx => h x (List.mem_cons_of_mem a hx)

theorem all_of_dropWhile_eq_nil {p : Char → Bool} {l : List Char}
    (h : l.dropWhile p = []) : ∀ x ∈ l, p x = true := by
  induction l with
  | nil => simp
  | cons a as ih =>
    rw [List.dropWhile_cons] at h
    by_cases ha : p a = true
    · rw [if_pos ha] at h
      intro x hx
      rcases List.mem_cons.mp hx with rfl | hx
      · exact ha
      · exact ih h x hx
    · rw [if_neg ha] at h
      cases h

/-- Dropping whitespace from the two ends of a line commutes. -/
theorem trimLeft_trimRight_comm (l : List Char) :
    trimLeft (trimRight l) = trimRight (trimLeft l) := by
  rcases hT : trimLeft l with _ | ⟨c, m⟩
  · have hall : ∀ x ∈ l, isSpace x = true := all_of_dropWhile_eq_nil hT
    have h2 : trimRight l = [] := by
      unfold trimRight
      rw [dropWhile_eq_nil_of_all fun x hx => hall x (List.mem_reverse.mp hx)]
      rfl
    rw [h2]
    rfl
  · have hc : isSpace c = false := not_space_head_trimLeft l c m hT
    have hdecomp : l.takeWhile isSpace ++ (c :: m) = l := by
      conv_rhs => rw [← List.takeWhile_append_dropWhile isSpace l]
      rw [← hT]
      rfl
    obtain ⟨D, hD⟩ :
        ∃ D, (m.reverse ++ [c]).dropWhile isSpace = D ++ [c] := by
      rw [dropWhile_append]
      by_cases hm : m.reverse.dropWhile isSpace = []
      · rw [if_pos hm]
        exact ⟨[], by simp [List.dropWhile_cons, hc]⟩
      · rw [if_neg hm]
        exact ⟨_, rfl⟩
    have hRHS : trimRight (c :: m) = c :: D.reverse := by
      unfold trimRight
      rw [List.reverse_cons, hD, List.reverse_append]
      simp
    have hrev : l.reverse = (m.reverse ++ [c]) ++ (l.takeWhile isSpace).reverse := by
      conv_lhs => rw [← hdecomp]
      simp
    have htrl : trimRight l = l.takeWhile isSpace ++ (c :: D.reverse) := by
      unfold trimRight
      rw [hrev, dropWhile_append, if_neg (by simp [hD]), hD]
      simp
    rw [htrl, hRHS]
    unfold trimLeft
    rw [dropWhile_append,
      if_pos (dropWhile_eq_nil_of_all fun x hx => List.mem_takeWhile_imp hx),
      List.dropWhile_cons, if_neg (by simp [hc])]

theorem trim_trimRight (l : List Char) : trim (trimRight l) = trim l := by
  unfold trim
  rw [trimLeft_trimRight_comm, trimRight_idem]

theorem trim_idem (l : List Char) : trim (trim l) = trim l := by
  unfold trim
  rw [trimLeft_trimRight_comm, trimRight_idem, trimLeft_idem]

theorem map_trim_modifyHead_of (g : List Char → List Char)
    (hg : ∀ a, trim (g a) = trim a) (Y : List (List Char)) :
    (Y.modifyHead g).map trim = Y.map trim := by
  cases Y with
  | nil => rfl
  | cons a as => simp [hg]

theorem map_trim_modifyLast (X : List (List Char)) :
    (modifyLast trimRight X).map trim = X.map trim := by
  unfold modifyLast
  rw [List.map_reverse, map_trim_modifyHead_of trimRight trim_trimRight,
    List.map_reverse, List.reverse_reverse]

/-- Bridge: trimming the whole line does not change the trimmed fields. -/
theorem map_trim_splitOn_trim {sep : Char} (hsep : isSpace sep = false)
    (l : List Char) :
    (splitOn sep (trim l)).map trim = (splitOn sep l).map trim := by
  rw [splitOn_trim hsep, map_trim_modifyLast,
    map_trim_modifyHead_of trimLeft trim_trimLeft]

theorem length_splitOn_trim {sep : Char} (hsep : isSpace sep = false)
    (l : List Char) :
    (splitOn sep (trim l)).length = (splitOn sep l).length := by
  have h := congrArg List.length (map_trim_splitOn_trim hsep l)
  simpa using h

theorem map_trim_getD (X : List (List Char)) (i : Nat) :
    (X.map trim).getD i [] = trim (X.getD i []) := by
  induction X generalizing i with
  | nil => simp [trim_nil]
  | cons a as ih =>
    cases i with
    | zero => simp
    | succ n => simpa using ih n

theorem trim_getD_splitOn_trim {sep : Char} (hsep : isSpace sep = false)
    (l : List Char) (i : Nat) :
    trim ((splitOn sep (trim l)).getD i []) = trim ((splitOn sep l).getD i []) := by
  rw [← map_trim_getD, ← map_trim_getD, map_trim_splitOn_trim hsep]

theorem contains_eq_true_iff (l : List Char) (c : Char) :
    l.contains c = true ↔ c ∈ l := by
  induction l with
  | nil => simp
  | cons a as ih =>
    rw [List.contains_cons]
    constructor
    · intro h
      rcases Bool.or_eq_true_iff.mp h with h | h
      · exact List.mem_cons.mpr (Or.inl (beq_iff_eq.mp h))
      · exact List.mem_cons.mpr (Or.inr (ih.mp h))
    · intro h
      rcases List.mem_cons.mp h with rfl | h
      · simp
      · exact Bool.or_eq_true_iff.mpr (Or.inr (ih.mpr h))

theorem contains_trim {c : Char} (hc : isSpace c = false) (l : List Char) :
    (trim l).contains c = l.contains c := by
  by_cases h : c ∈ l
  · rw [(contains_eq_true_iff _ _).mpr h,
      (contains_eq_true_iff _ _).mpr ((mem_trim_iff hc).mpr h)]
  · have h1 : (trim l).contains c ≠ true := fun hx =>
      h (mem_of_mem_trimLeft
        ((mem_trimRight_iff hc).mp ((contains_eq_true_iff _ _).mp hx)))
    have h2 : l.contains c ≠ true := fun hx => h ((contains_eq_true_iff _ _).mp hx)
    rw [Bool.eq_false_iff.mpr h1, Bool.eq_false_iff.mpr h2]

theorem contains_of_splitOn_length {sep : Char} {l : List Char}
    (h : 2 ≤ (splitOn sep l).length) : l.contains sep = true := by
  induction l with
  | nil => simp [splitOn_nil] at h
  | cons c cs ih =>
    by_cases he : c = sep
    · rw [he, List.contains_cons]
      simp
    · rw [splitOn_cons_ne he] at h
      rw [List.contains_cons]
      have h2 : 2 ≤ (splitOn sep cs).length := by
        have := headI_cons_tail_of_ne_nil (splitOn_ne_nil sep cs)
        have hlen : (splitOn sep cs).length = (splitOn sep cs).tail.length + 1 := by
          conv_lhs => rw [← this]
          simp
        simp only [List.length_cons] at h
        omega
      exact Bool.or_eq_true_iff.mpr (Or.inr (ih h2))

theorem splitOn_length_of_contains {sep : Char} {l : List Char}
    (h : l.contains sep = true) : 2 ≤ (splitOn sep l).length := by
  induction l with
  | nil => simp at h
  | cons c cs ih =>
    by_cases he : c = sep
    · rw [he, splitOn_cons_sep]
      have hpos : 0 < (splitOn sep cs).length :=
        List.length_pos.mpr (splitOn_ne_nil sep cs)
      simp only [List.length_cons]
      omega
    · rw [splitOn_cons_ne he]
      rw [List.contains_cons] at h
      rcases Bool.or_eq_true_iff.mp h with h | h
      · exact absurd (beq_iff_eq.mp h).symm he
      · have h2 := ih h
        have hcons := headI_cons_tail_of_ne_nil (splitOn_ne_nil sep cs)
        have hlen : (splitOn sep cs).length = (splitOn sep cs).tail.length + 1 := by
          conv_lhs => rw [← hcons]
          simp
        simp only [List.length_cons]
        omega

/-! ## Characterisation of `ParseLine` over the raw line's fields -/

theorem pipe_not_space : isSpace '|' = false := by decide

theorem ParseLine_eq_none_iff (l : List Char) :
    ParseLine l = none ↔
      trim l = [] ∨ l.contains '|' = false ∨
        trim ((splitOn '|' l).getD 0 []) = [] := by
  have htc := contains_trim pipe_not_space l
  have hname := trim_getD_splitOn_trim pipe_not_space l 0
  simp only [ParseLine]
  by_cases h1 : trim l = []
  · rw [if_pos h1]
    exact iff_of_true rfl (Or.inl h1)
  · rw [if_neg h1]
    by_cases hb : (trim l).contains '|' = false
    · rw [if_pos hb]
      exact iff_of_true rfl (Or.inr (Or.inl (htc ▸ hb)))
    · rw [if_neg hb]
      by_cases h3 : trim ((splitOn '|' (trim l)).getD 0 []) = []
      · rw [if_pos h3]
        exact iff_of_true rfl (Or.inr (Or.inr (hname ▸ h3)))
      · rw [if_neg h3]
        refine iff_of_false (by simp) ?_
        rintro (hc | hc | hc)
        · exact h1 hc
        · exact hb (htc.trans hc)
        · exact h3 (hname.trans hc)

theorem ParseLine_eq_some (l : List Char) (h : ParseLine l ≠ none) :
    ParseLine l = some ⟨trim ((splitOn '|' l).getD 0 []),
      trim ((splitOn '|' l).getD 1 []),
      trim ((splitOn '|' l).getD 2 [])⟩ := by
  have hno : ¬(trim l = [] ∨ l.contains '|' = false ∨
      trim ((splitOn '|' l).getD 0 []) = []) := fun hc =>
    h ((ParseLine_eq_none_iff l).mpr hc)
  push_neg at hno
  obtain ⟨h1, h2, h3⟩ := hno
  have htc := contains_trim pipe_not_space l
  have hct : (trim l).contains '|' = true := by
    rw [htc]
    exact Bool.ne_false_iff.mp h2
  have hlen2 : 2 ≤ (splitOn '|' (trim l)).length := splitOn_length_of_contains hct
  have hname := trim_getD_splitOn_trim pipe_not_space l 0
  have hqty := trim_getD_splitOn_trim pipe_not_space l 1
  have hnotes := trim_getD_splitOn_trim pipe_not_space l 2
  have hnm : trim ((splitOn '|' (trim l)).getD 0 []) ≠ [] := fun he =>
    h3 (hname ▸ he)
  simp only [ParseLine]
  rw [if_neg h1,
    if_neg (show ¬((trim l).contains '|' = false) by rw [hct]; simp),
    if_neg hnm, if_pos hlen2]
  by_cases h3len : 3 ≤ (splitOn '|' (trim l)).length
  · rw [if_pos h3len, hname, hqty, hnotes]
  · rw [if_neg h3len, hname, hqty]
    have hl2 : (splitOn '|' l).length ≤ 2 := by
      rw [← length_splitOn_trim pipe_not_space l]
      omega
    rw [List.getD_eq_default _ _ hl2]
    rfl

theorem foldl_parse_append (L : List (List Char)) (acc : List DetectedItem) :
    L.foldl (fun items line =>
        match ParseLine line with
        | some item => items ++ [item]
        | none => items) acc
      = acc ++ (L.map fun line => (ParseLine line).toList).flatten := by
  induction L generalizing acc with
  | nil => simp
  | cons a as ih =>
    cases hp : ParseLine a with
    | none => simp [List.foldl_cons, hp, ih]
    | some it => simp [List.foldl_cons, hp, ih]

/-! ## Claims C3, C4, C10 -/

/-- **C3.** For every input string `s`, batch parsing `ParseResponse s` equals
the concatenation, in order, of the per-line results of `ParseLine` applied to
each line of `s` split on newline (batch/stream parity of the parser). -/
theorem C3_batch_stream_parity (raw : List Char) :
    ParseResponse raw
      = ((splitOn '\n' raw).map fun line => (ParseLine line).toList).flatten := by
  unfold ParseResponse
  simpa using foldl_parse_append (splitOn '\n' raw) []

/-- **C4.** For every line `L`, `ParseLine L` yields no item iff `L` is blank
after trimming, or contains no `'|'` separator, or its first `'|'`-delimited
field trims to empty; otherwise it yields exactly one item whose `Name`,
`Quantity` and `Notes` equal the independently-trimmed first, second and third
`'|'`-delimited fields of `L` (`Quantity`/`Notes` empty when absent). -/
theorem C4_ParseLine_fields (l : List Char) :
    (ParseLine l = none ↔
      trim l = [] ∨ l.contains '|' = false ∨
        trim ((splitOn '|' l).getD 0 []) = []) ∧
    (ParseLine l ≠ none →
      ParseLine l = some ⟨trim ((splitOn '|' l).getD 0 []),
        trim ((splitOn '|' l).getD 1 []),
        trim ((splitOn '|' l).getD 2 [])⟩) :=
  ⟨ParseLine_eq_none_iff l, ParseLine_eq_some l⟩

/-- Witness for C4 at the concrete line `"Milk | 2 | opened"`. -/
theorem C4_witness :
    ParseLine ("Milk | 2 | opened".data) ≠ none ∧
    ParseLine ("Milk | 2 | opened".data) =
      some ⟨trim ((splitOn '|' ("Milk | 2 | opened".data)).getD 0 []),
        trim ((splitOn '|' ("Milk | 2 | opened".data)).getD 1 []),
        trim ((splitOn '|' ("Milk | 2 | opened".data)).getD 2 [])⟩ :=
  ⟨by decide, (C4_ParseLine_fields ("Milk | 2 | opened".data)).2 (by decide)⟩

/-- **C10 counterexample.** The line `"| a | b | c"` contains three `'|'`
separators, yet `ParseLine` returns no item (its first field is blank), so the
claim that `ParseLine` returns an item for every such line fails. -/
theorem C10_counterexample :
    3 ≤ (("| a | b | c".data).count '|') ∧
      ParseLine ("| a | b | c".data) = none :=
  ⟨by decide, by decide⟩

/-- **C10 (amended).** For every input line containing three or more `'|'`
separators on which `ParseLine` yields an item, the item's `Notes` equals only
the trimmed third `'|'`-delimited field; all text after the third separator is
silently discarded. -/
theorem C10_notes_third_field (l : List Char) (h3 : 3 ≤ l.count '|')
    (h : ParseLine l ≠ none) :
    ∃ it, ParseLine l = some it ∧
      it.Notes = trim ((splitOn '|' l).getD 2 []) ∧
      it.Name = trim ((splitOn '|' l).getD 0 []) ∧
      it.Quantity = trim ((splitOn '|' l).getD 1 []) :=
  ⟨_, ParseLine_eq_some l h, rfl, rfl, rfl⟩

/-- Witness for C10 at the line `"a|b|c|dropped"`: the text after the third
separator does not reach `Notes`. -/
theorem C10_witness :
    3 ≤ ("a|b|c|dropped".data).count '|' ∧
    ∃ it, ParseLine ("a|b|c|dropped".data) = some it ∧
      it.Notes = trim ((splitOn '|' ("a|b|c|dropped".data)).getD 2 []) ∧
      it.Name = trim ((splitOn '|' ("a|b|c|dropped".data)).getD 0 []) ∧
      it.Quantity = trim ((splitOn '|' ("a|b|c|dropped".data)).getD 1 []) :=
  ⟨by decide, C10_notes_third_field ("a|b|c|dropped".data) (by decide) (by decide)⟩

/-! ## Adapter error discipline -/

theorem lineEvents_no_err (line : List Char) :
    (lineEvents line).countP isErr = 0 := by
  cases hp : ParseLine (trim line) <;> simp [lineEvents, hp, isErr]

theorem feedChars_no_err (cs : List Char) :
    ∀ buf, ((feedChars buf cs).1).countP isErr = 0 := by
  induction cs with
  | nil => intro buf; simp [feedChars]
  | cons c cs ih =>
    intro buf
    by_cases h : c = '\n'
    · simp [feedChars, h, List.countP_append, lineEvents_no_err, ih]
    · simp [feedChars, h, ih]

/-- Error events of an Ollama run: none without a transport failure, exactly
one — the final event — with one. -/
theorem ollama_err_split (chunks : List OllamaChunk) :
    ∀ buf readErr,
      (ollamaFailure readErr chunks = false →
        (OllamaAnalyzeStream buf readErr chunks).countP isErr = 0) ∧
      (ollamaFailure readErr chunks = true →
        ∃ pre m, OllamaAnalyzeStream buf readErr chunks
            = pre ++ [StreamEvent.err m] ∧ pre.countP isErr = 0) := by
  induction chunks with
  | nil =>
    intro buf readErr
    constructor
    · intro hf
      simp only [ollamaFailure] at hf
      simp [OllamaAnalyzeStream, hf]
    · intro hf
      simp only [ollamaFailure] at hf
      exact ⟨[], ("read stream".data), by simp [OllamaAnalyzeStream, hf], by simp⟩
  | cons ch rest ih =>
    intro buf readErr
    cases ch with
    | malformed =>
      constructor
      · intro hf
        simp [ollamaFailure] at hf
      · intro _
        exact ⟨[], ("parse chunk".data), by simp [OllamaAnalyzeStream], by simp⟩
    | chunk resp done =>
      cases done with
      | true =>
        constructor
        · intro _
          simp [OllamaAnalyzeStream, List.countP_append, feedChars_no_err,
            lineEvents_no_err]
        · intro hf
          simp [ollamaFailure] at hf
      | false =>
        constructor
        · intro hf
          have hf' : ollamaFailure readErr rest = false := by
            simpa [ollamaFailure] using hf
          simp [OllamaAnalyzeStream, List.countP_append, feedChars_no_err,
            (ih _ readErr).1 hf']
        · intro hf
          have hf' : ollamaFailure readErr rest = true := by
            simpa [ollamaFailure] using hf
          obtain ⟨pre, m, he, hp⟩ := (ih (feedChars buf resp).2 readErr).2 hf'
          refine ⟨(feedChars buf resp).1 ++ pre, m, ?_, ?_⟩
          · simp [OllamaAnalyzeStream, he]
          · simp [List.countP_append, feedChars_no_err, hp]

theorem claudeFlush_no_err (buf : List Char) :
    (claudeFlush buf).countP isErr = 0 := by
  unfold claudeFlush
  by_cases h : trim buf = [] <;> simp [h, lineEvents_no_err]

/-- Error events of a Claude run: none without a terminal read error, exactly
one — the final event — with one.  Malformed chunks are skipped silently. -/
theorem claude_err_split (lines : List ClaudeLine) :
    ∀ buf readErr,
      (claudeFailure readErr lines = false →
        (ClaudeAnalyzeStream buf readErr lines).countP isErr = 0) ∧
      (claudeFailure readErr lines = true →
        ∃ pre m, ClaudeAnalyzeStream buf readErr lines
            = pre ++ [StreamEvent.err m] ∧ pre.countP isErr = 0) := by
  induction lines with
  | nil =>
    intro buf readErr
    constructor
    · intro hf
      simp only [claudeFailure] at hf
      simp [ClaudeAnalyzeStream, hf, claudeFlush_no_err]
    · intro hf
      simp only [claudeFailure] at hf
      exact ⟨claudeFlush buf, ("read claude stream".data),
        by simp [ClaudeAnalyzeStream, hf], claudeFlush_no_err buf⟩
  | cons lline rest ih =>
    intro buf readErr
    cases lline with
    | doneMark =>
      constructor
      · intro _
        simp [ClaudeAnalyzeStream, claudeFlush_no_err]
      · intro hf
        simp [claudeFailure] at hf
    | notData =>
      simpa [ClaudeAnalyzeStream, claudeFailure] using ih buf readErr
    | malformed =>
      simpa [ClaudeAnalyzeStream, claudeFailure] using ih buf readErr
    | otherEvent =>
      simpa [ClaudeAnalyzeStream, claudeFailure] using ih buf readErr
    | delta txt =>
      constructor
      · intro hf
        have hf' : claudeFailure readErr rest = false := by
          simpa [claudeFailure] using hf
        simp [ClaudeAnalyzeStream, List.countP_append, feedChars_no_err,
          (ih _ readErr).1 hf']
      · intro hf
        have hf' : claudeFailure readErr rest = true := by
          simpa [claudeFailure] using hf
        obtain ⟨pre, m, he, hp⟩ := (ih (feedChars buf txt).2 readErr).2 hf'
        refine ⟨(feedChars buf txt).1 ++ pre, m, ?_, ?_⟩
        · simp [ClaudeAnalyzeStream, he]
        · simp [List.countP_append, feedChars_no_err, hp]

/-- Error count and position discipline shared by both adapters. -/
theorem err_discipline {out : List StreamEvent} {fail : Bool}
    (h0 : fail = false → out.countP isErr = 0)
    (h1 : fail = true → ∃ pre m, out = pre ++ [StreamEvent.err m] ∧
      pre.countP isErr = 0) :
    out.countP isErr = (if fail = true then 1 else 0)
      ∧ (out.dropLast).countP isErr = 0 := by
  cases fail with
  | false =>
    have hz := h0 rfl
    have hle := List.Sublist.countP_le isErr (List.dropLast_sublist out)
    constructor
    · simp [hz]
    · omega
  | true =>
    obtain ⟨pre, m, he, hp⟩ := h1 rfl
    subst he
    constructor
    · simp [List.countP_append, hp, List.countP_cons, isErr]
    · rw [List.dropLast_concat]
      exact hp

/-! ## Claims C5, C9 -/

/-- **C5 counterexample.** The Claude adapter skips a malformed data chunk
silently: the run over a single malformed chunk (no read error) emits no
event at all — in particular no `StreamEvent` with an error — refuting the
claim that both adapters emit exactly one error event on a malformed chunk. -/
theorem C5_counterexample :
    ClaudeAnalyzeStream [] false [ClaudeLine.malformed] = [] := by decide

/-- **C5 (amended).** Both adapters emit at most one error event, and only as
the final event on the channel (no item event ever follows an error); they
emit exactly one error event precisely on transport failure, where a
malformed chunk counts as a failure for the Ollama adapter but is skipped
silently by the Claude adapter (whose only error source is a read error). -/
theorem C5_terminal_single_error (bufO bufC : List Char) (reO reC : Bool)
    (ocs : List OllamaChunk) (ccs : List ClaudeLine) :
    ((OllamaAnalyzeStream bufO reO ocs).countP isErr
        = (if ollamaFailure reO ocs = true then 1 else 0)
      ∧ ((OllamaAnalyzeStream bufO reO ocs).dropLast).countP isErr = 0)
    ∧ ((ClaudeAnalyzeStream bufC reC ccs).countP isErr
        = (if claudeFailure reC ccs = true then 1 else 0)
      ∧ ((ClaudeAnalyzeStream bufC reC ccs).dropLast).countP isErr = 0) :=
  ⟨err_discipline ((ollama_err_split ocs bufO reO).1)
      ((ollama_err_split ocs bufO reO).2),
    err_discipline ((claude_err_split ccs bufC reC).1)
      ((claude_err_split ccs bufC reC).2)⟩

/-- **C9.** When the backend's done marker is observed (a `done:true` chunk
for Ollama, the `[DONE]` sentinel for Claude) with a non-empty trailing line
in the internal buffer, both adapters pass that line through the parser once
and, if it yields an item, emit exactly the one corresponding item event
before the channel closes; anything after the done marker is ignored. -/
theorem C9_done_flush (b : List Char) (rest : List OllamaChunk)
    (crest : List ClaudeLine) (reO reC : Bool) (h : trim b ≠ []) :
    OllamaAnalyzeStream b reO (OllamaChunk.chunk [] true :: rest)
        = (ParseLine (trim b)).toList.map StreamEvent.item
    ∧ ClaudeAnalyzeStream b reC (ClaudeLine.doneMark :: crest)
        = (ParseLine (trim b)).toList.map StreamEvent.item := by
  have hl : lineEvents b = (ParseLine (trim b)).toList.map StreamEvent.item := by
    cases hp : ParseLine (trim b) <;> simp [lineEvents, hp]
  constructor
  · simp [OllamaAnalyzeStream, feedChars, hl]
  · simp [ClaudeAnalyzeStream, claudeFlush, h, hl]

/-- Witness for C9 with the buffer `" Milk | 2 "` pending at the done
marker. -/
theorem C9_witness :
    trim (" Milk | 2 ".data) ≠ [] ∧
    OllamaAnalyzeStream (" Milk | 2 ".data) false [OllamaChunk.chunk [] true]
      = (ParseLine (trim (" Milk | 2 ".data))).toList.map StreamEvent.item :=
  ⟨by decide,
    (C9_done_flush (" Milk | 2 ".data) [] [] false false (by decide)).1⟩

/-! ## Forwarder lemmas and claim C7 -/

theorem forward_done_mem (evs : List StreamEvent) :
    WireMsg.done ∈ forwardEvents false true evs ↔ evs.countP isErr = 0 := by
  induction evs with
  | nil => simp [forwardEvents]
  | cons ev rest ih =>
    cases ev with
    | err m => simp [forwardEvents, List.countP_cons, isErr]
    | item d =>
      simp [forwardEvents, List.countP_cons, isErr, ih]

theorem forward_no_done_of_err (cancelled clientOk : Bool)
    (evs : List StreamEvent) (h : 0 < evs.countP isErr) :
    WireMsg.done ∉ forwardEvents cancelled clientOk evs := by
  induction evs with
  | nil => simp [List.countP_nil] at h
  | cons ev rest ih =>
    cases hc : cancelled with
    | true => simp [forwardEvents]
    | false =>
      cases ev with
      | err m => simp [forwardEvents]
      | item d =>
        cases hk : clientOk with
        | false => simp [forwardEvents]
        | true =>
          have h' : 0 < rest.countP isErr := by
            simpa [List.countP_cons, isErr] using h
          rw [hc, hk] at ih
          simp [forwardEvents, ih h']

theorem forward_msgs (cancelled clientOk : Bool) (evs : List StreamEvent) :
    ∀ m ∈ forwardEvents cancelled clientOk evs,
      m = WireMsg.done ∨ ∃ d, StreamEvent.item d ∈ evs ∧
        m = WireMsg.data d.Name d.Quantity d.Notes := by
  induction evs with
  | nil =>
    intro m hm
    cases hk : clientOk with
    | false => rw [hk] at hm; simp [forwardEvents] at hm
    | true =>
      rw [hk] at hm
      simp only [forwardEvents, if_true] at hm
      left
      simpa using hm
  | cons ev rest ih =>
    intro m hm
    cases hc : cancelled with
    | true => rw [hc] at hm; simp [forwardEvents] at hm
    | false =>
      rw [hc] at hm
      cases ev with
      | err e => simp [forwardEvents] at hm
      | item d =>
        cases hk : clientOk with
        | false => rw [hk] at hm; simp [forwardEvents] at hm
        | true =>
          rw [hk] at hm
          simp only [forwardEvents, if_false, if_true] at hm
          rcases List.mem_cons.mp hm with rfl | hm
          · exact Or.inr ⟨d, by simp, rfl⟩
          · rw [← hc, ← hk] at hm
            rcases ih m hm with h | ⟨d', hd', rfl⟩
            · exact Or.inl h
            · exact Or.inr ⟨d', List.mem_cons_of_mem _ hd', rfl⟩

/-- **C7.** For an upload whose client stays connected and whose request is
not cancelled, the terminal done marker is written iff the orchestrator's
channel closes without having delivered an error event; whenever an error
event arrives the response ends with no done marker; and in every run each
written message is either the done marker or the data of some item event —
no error payload is ever written to the client. -/
theorem C7_done_marker (evs : List StreamEvent) :
    (WireMsg.done ∈ forwardEvents false true evs ↔ evs.countP isErr = 0)
    ∧ (∀ cancelled clientOk, 0 < evs.countP isErr →
        WireMsg.done ∉ forwardEvents cancelled clientOk evs)
    ∧ (∀ cancelled clientOk, ∀ m ∈ forwardEvents cancelled clientOk evs,
        m = WireMsg.done ∨ ∃ d, StreamEvent.item d ∈ evs ∧
          m = WireMsg.data d.Name d.Quantity d.Notes) :=
  ⟨forward_done_mem evs,
    fun cancelled clientOk h => forward_no_done_of_err cancelled clientOk evs h,
    fun cancelled clientOk => forward_msgs cancelled clientOk evs⟩

/-- Witness for C7: an error event suppresses the done marker. -/
theorem C7_witness :
    WireMsg.done ∉ forwardEvents false true [StreamEvent.err ("boom".data)] :=
  (C7_done_marker [StreamEvent.err ("boom".data)]).2.1 false true (by decide)

/-! ## Worker lemmas -/

/-- The imperative worker's single pass equals the specification-side
projections: forwarded events, appended persisted items, and a trace made of
item-create calls only. -/
theorem streamWorker_spec (evs : List StreamEvent) :
    ∀ create areaID pid k st,
      (streamWorker create areaID pid k st evs).1 = workerOutSpec create k evs
      ∧ (streamWorker create areaID pid k st evs).2.1
          = { st with items := st.items ++ workerItemsSpec create areaID pid k evs }
      ∧ ∀ op ∈ (streamWorker create areaID pid k st evs).2.2,
          op = Op.itemCreate := by
  induction evs with
  | nil =>
    intro create areaID pid k st
    refine ⟨rfl, ?_, by simp [streamWorker]⟩
    simp [streamWorker, workerItemsSpec]
  | cons ev rest ih =>
    intro create areaID pid k st
    cases ev with
    | err m =>
      refine ⟨rfl, ?_, by simp [streamWorker]⟩
      simp [streamWorker, workerItemsSpec]
    | item d =>
      cases hc : create k d with
      | none =>
        obtain ⟨h1, h2, h3⟩ := ih create areaID pid (k + 1) st
        refine ⟨?_, ?_, ?_⟩
        · simp [streamWorker, workerOutSpec, hc, h1]
        · simp [streamWorker, workerItemsSpec, hc, h2]
        · intro op hm
          simp only [streamWorker, hc] at hm
          rcases List.mem_cons.mp hm with rfl | hm
          · rfl
          · exact h3 op hm
      | some pr =>
        obtain ⟨iid, stored⟩ := pr
        obtain ⟨h1, h2, h3⟩ := ih create areaID pid (k + 1)
          { st with items := st.items ++
              [⟨iid, areaID, some pid, stored.Name, stored.Quantity, stored.Notes⟩] }
        refine ⟨?_, ?_, ?_⟩
        · simp [streamWorker, workerOutSpec, hc, h1]
        · simp [streamWorker, workerItemsSpec, hc, h2]
        · intro op hm
          simp only [streamWorker, hc] at hm
          rcases List.mem_cons.mp hm with rfl | hm
          · rfl
          · exact h3 op hm

/-- Every record the worker persists is linked to the new photo and area. -/
theorem workerItemsSpec_linked (evs : List StreamEvent) :
    ∀ create areaID pid k,
      ∀ it ∈ workerItemsSpec create areaID pid k evs,
        it.PhotoID = some pid ∧ it.AreaID = areaID := by
  induction evs with
  | nil =>
    intro create areaID pid k it hm
    simp [workerItemsSpec] at hm
  | cons ev rest ih =>
    intro create areaID pid k it hm
    cases ev with
    | err m => simp [workerItemsSpec] at hm
    | item d =>
      cases hc : create k d with
      | none =>
        simp only [workerItemsSpec, hc] at hm
        exact ih create areaID pid (k + 1) it hm
      | some pr =>
        obtain ⟨iid, stored⟩ := pr
        simp only [workerItemsSpec, hc] at hm
        rcases List.mem_cons.mp hm with rfl | hm
        · exact ⟨rfl, rfl⟩
        · exact ih create areaID pid (k + 1) it hm

/-- The only errors on the worker's output channel come from the adapter. -/
theorem workerOutSpec_err (evs : List StreamEvent) :
    ∀ create k m, StreamEvent.err m ∈ workerOutSpec create k evs →
      StreamEvent.err m ∈ evs := by
  induction evs with
  | nil =>
    intro create k m hm
    simp [workerOutSpec] at hm
  | cons ev rest ih =>
    intro create k m hm
    cases ev with
    | err e =>
      simp only [workerOutSpec] at hm
      rcases List.mem_cons.mp hm with he | hm
      · rw [he]; exact List.mem_cons_self _ _
      · simp at hm
    | item d =>
      cases hc : create k d with
      | none =>
        simp only [workerOutSpec, hc] at hm
        exact List.mem_cons_of_mem _ (ih create (k + 1) m hm)
      | some pr =>
        obtain ⟨iid, stored⟩ := pr
        simp only [workerOutSpec, hc] at hm
        rcases List.mem_cons.mp hm with he | hm
        · cases he
        · exact List.mem_cons_of_mem _ (ih create (k + 1) m hm)

/-! ## Claim C6 -/

/-- **C6.** The orchestrator's background worker persists each item event as
an `Item` linked to the new photo's ID, forwards — in the same order — events
carrying the persisted record's fields (not the raw detection), skips an item
whose persist fails and continues with the remaining events, and surfaces no
error for a skipped item: every error on the output channel comes from the
adapter's own events. -/
theorem C6_worker_persists_and_forwards
    (create : Nat → DetectedItem → Option (Nat × DetectedItem))
    (areaID pid k : Nat) (st : St) (evs : List StreamEvent) :
    (streamWorker create areaID pid k st evs).1 = workerOutSpec create k evs
    ∧ (streamWorker create areaID pid k st evs).2.1
        = { st with items := st.items ++ workerItemsSpec create areaID pid k evs }
    ∧ (∀ it ∈ workerItemsSpec create areaID pid k evs,
        it.PhotoID = some pid ∧ it.AreaID = areaID)
    ∧ (∀ m, StreamEvent.err m ∈ workerOutSpec create k evs →
        StreamEvent.err m ∈ evs) :=
  ⟨(streamWorker_spec evs create areaID pid k st).1,
    (streamWorker_spec evs create areaID pid k st).2.1,
    workerItemsSpec_linked evs create areaID pid k,
    workerOutSpec_err evs create k⟩

/-- Witness for C6: a concrete run where the first persist fails (the item is
skipped, no error surfaced) and the second succeeds with rewritten fields. -/
theorem C6_witness :
    (streamWorker createW 7 5 0 stW
        [StreamEvent.item ⟨"a".data, [], []⟩,
          StreamEvent.item ⟨"b".data, [], []⟩]).1
      = workerOutSpec createW 0
          [StreamEvent.item ⟨"a".data, [], []⟩,
            StreamEvent.item ⟨"b".data, [], []⟩] :=
  (C6_worker_persists_and_forwards createW 7 5 0 stW
    [StreamEvent.item ⟨"a".data, [], []⟩,
      StreamEvent.item ⟨"b".data, [], []⟩]).1

/-! ## Claim C1 -/

/-- **C1.** Every `UploadPhotoStream` call that fails before streaming is
accepted — area lookup error or not-found, no streaming support, blob save
failure, photo-record create failure, or `AnalyzeStream` failure — returns an
error (with no photo and no channel), and, provided the compensating deletes
succeed, leaves the state exactly as before the call: previous photo and
items untouched, any blob or photo record created during the call deleted. -/
theorem C1_setup_failure_preserves_state (env : Env) (ctx : Bool)
    (areaID : Nat) (imageData mimeType : List Char) (st : St)
    (hf : SetupFailure env) (hpd : env.photoDeleteOk = true)
    (hbd : env.blobDeleteOk = true) :
    (UploadPhotoStream env ctx areaID imageData mimeType st).1.err ≠ none
    ∧ (UploadPhotoStream env ctx areaID imageData mimeType st).1.photo = none
    ∧ (UploadPhotoStream env ctx areaID imageData mimeType st).1.events = none
    ∧ (UploadPhotoStream env ctx areaID imageData mimeType st).2.1 = st := by
  cases ctx with
  | true =>
    refine ⟨?_, ?_, ?_, ?_⟩ <;> simp [UploadPhotoStream, ctxLookup]
  | false =>
    rcases hlk : env.lookup with _ | _ | _
    · refine ⟨?_, ?_, ?_, ?_⟩ <;> simp [UploadPhotoStream, ctxLookup, hlk]
    · refine ⟨?_, ?_, ?_, ?_⟩ <;> simp [UploadPhotoStream, ctxLookup, hlk]
    · rcases hstrm : env.streaming with _ | _
      · refine ⟨?_, ?_, ?_, ?_⟩ <;>
          simp [UploadPhotoStream, ctxLookup, hlk, hstrm]
      · rcases hsv : env.saveRes with _ | key
        · refine ⟨?_, ?_, ?_, ?_⟩ <;>
            simp [UploadPhotoStream, ctxLookup, ctxSave, hlk, hstrm, hsv]
        · rcases hpc : env.photoCreateRes with _ | pid
          · refine ⟨?_, ?_, ?_, ?_⟩ <;>
              simp [UploadPhotoStream, ctxLookup, ctxSave, ctxPhotoCreate,
                hlk, hstrm, hsv, hpc, hbd, List.erase_cons_head]
          · rcases har : env.analyzeRes with _ | evs
            · refine ⟨?_, ?_, ?_, ?_⟩ <;>
                simp [UploadPhotoStream, ctxLookup, ctxSave, ctxPhotoCreate,
                  ctxAnalyze, hlk, hstrm, hsv, hpc, har, hbd, hpd,
                  List.erase_cons_head, List.eraseP_cons_of_pos]
            · exfalso
              rcases hf with h | h | h | h | h | h
              · rw [hlk] at h; simp at h
              · rw [hlk] at h; simp at h
              · rw [hstrm] at h; simp at h
              · rw [hsv] at h; simp at h
              · rw [hpc] at h; simp at h
              · rw [har] at h; simp at h

/-- Witness for C1: lookup reports not-found; the call errors and the state
(photo `1`, items Milk and Butter, blob `"old"`) is exactly preserved. -/
theorem C1_witness :
    (UploadPhotoStream envW false 7 [] ("image/jpeg".data) stW).1.err ≠ none
    ∧ (UploadPhotoStream envW false 7 [] ("image/jpeg".data) stW).2.1 = stW :=
  ⟨(C1_setup_failure_preserves_state envW false 7 [] ("image/jpeg".data) stW
      (Or.inr (Or.inl rfl)) rfl rfl).1,
    (C1_setup_failure_preserves_state envW false 7 [] ("image/jpeg".data) stW
      (Or.inr (Or.inl rfl)) rfl rfl).2.2.2⟩

/-! ## Claim C2 -/

/-- Worker traces contain no `deleteItems` operation. -/
theorem worker_trace_no_delete
    (create : Nat → DetectedItem → Option (Nat × DetectedItem))
    (areaID pid k : Nat) (st : St) (evs : List StreamEvent) :
    ((streamWorker create areaID pid k st evs).2.2).count Op.deleteItems = 0 :=
  List.count_eq_zero.mpr fun hm => by
    have h := (streamWorker_spec evs create areaID pid k st).2.2 _ hm
    simp at h

/-- **C2.** In every execution of `UploadPhotoStream`, the deletion of the
area's previous items happens exactly once if the adapter's `AnalyzeStream`
call returned successfully and never otherwise, and no `deleteItems`
operation ever precedes the successful `analyzeStream` in the trace. -/
theorem C2_delete_once_after_stream (env : Env) (ctx : Bool) (areaID : Nat)
    (imageData mimeType : List Char) (st : St) :
    ((UploadPhotoStream env ctx areaID imageData mimeType st).2.2).count
        Op.deleteItems
      = (if Op.analyzeStream true ∈
            (UploadPhotoStream env ctx areaID imageData mimeType st).2.2
          then 1 else 0)
    ∧ deleteAfterAnalyze
        ((UploadPhotoStream env ctx areaID imageData mimeType st).2.2)
      = true := by
  cases ctx with
  | true =>
    have htr : (UploadPhotoStream env true areaID imageData mimeType st).2.2
        = [Op.getArea] := by
      simp [UploadPhotoStream, ctxLookup]
    rw [htr]
    constructor <;> decide
  | false =>
    rcases hlk : env.lookup with _ | _ | _
    · have htr : (UploadPhotoStream env false areaID imageData mimeType st).2.2
          = [Op.getArea] := by
        simp [UploadPhotoStream, ctxLookup, hlk]
      rw [htr]
      constructor <;> decide
    · have htr : (UploadPhotoStream env false areaID imageData mimeType st).2.2
          = [Op.getArea] := by
        simp [UploadPhotoStream, ctxLookup, hlk]
      rw [htr]
      constructor <;> decide
    · rcases hstrm : env.streaming with _ | _
      · have htr : (UploadPhotoStream env false areaID imageData mimeType st).2.2
            = [Op.getArea] := by
          simp [UploadPhotoStream, ctxLookup, hlk, hstrm]
        rw [htr]
        constructor <;> decide
      · rcases hsv : env.saveRes with _ | key
        · have htr :
              (UploadPhotoStream env false areaID imageData mimeType st).2.2
                = [Op.getArea, Op.save] := by
            simp [UploadPhotoStream, ctxLookup, ctxSave, hlk, hstrm, hsv]
          rw [htr]
          constructor <;> decide
        · rcases hpc : env.photoCreateRes with _ | pid
          · have htr :
                (UploadPhotoStream env false areaID imageData mimeType st).2.2
                  = [Op.getArea, Op.save, Op.photoCreate, Op.blobDelete] := by
              simp [UploadPhotoStream, ctxLookup, ctxSave, ctxPhotoCreate,
                hlk, hstrm, hsv, hpc]
            rw [htr]
            constructor <;> decide
          · rcases har : env.analyzeRes with _ | evs
            · have htr :
                  (UploadPhotoStream env false areaID imageData mimeType st).2.2
                    = [Op.getArea, Op.save, Op.photoCreate,
                        Op.analyzeStream false, Op.photoDelete,
                        Op.blobDelete] := by
                simp [UploadPhotoStream, ctxLookup, ctxSave, ctxPhotoCreate,
                  ctxAnalyze, hlk, hstrm, hsv, hpc, har]
              rw [htr]
              constructor <;> decide
            · rcases hdi : env.deleteItemsOk with _ | _
              · have htr :
                    (UploadPhotoStream env false areaID imageData mimeType st).2.2
                      = [Op.getArea, Op.save, Op.photoCreate,
                          Op.analyzeStream true, Op.deleteItems] := by
                  simp [UploadPhotoStream, ctxLookup, ctxSave, ctxPhotoCreate,
                    ctxAnalyze, ctxDeleteItems, hlk, hstrm, hsv, hpc, har, hdi]
                rw [htr]
                constructor <;> decide
              · obtain ⟨wtr, htr, hcnt⟩ :
                    ∃ wtr,
                      (UploadPhotoStream env false areaID imageData mimeType
                          st).2.2
                        = [Op.getArea, Op.save, Op.photoCreate,
                            Op.analyzeStream true, Op.deleteItems] ++ wtr
                      ∧ wtr.count Op.deleteItems = 0 := by
                  simp [UploadPhotoStream, ctxLookup, ctxSave, ctxPhotoCreate,
                    ctxAnalyze, ctxDeleteItems, ctxItemCreate, hlk, hstrm,
                    hsv, hpc, har, hdi]
                  exact worker_trace_no_delete _ _ _ _ _ _
                rw [htr]
                have hmem : Op.analyzeStream true ∈
                    ([Op.getArea, Op.save, Op.photoCreate,
                      Op.analyzeStream true, Op.deleteItems] ++ wtr) :=
                  List.mem_append.mpr (Or.inl (by decide))
                constructor
                · rw [if_pos hmem, List.count_append, hcnt]
                  decide
                · rfl

/-! ## Claim C8 -/

/-- When the forwarder drains enough (at least one slot per event), the
blocked worker model coincides with the run-to-completion worker: the
bounded channel is then inert. -/
theorem streamWorkerBlocking_of_le (evs : List StreamEvent) :
    ∀ create areaID pid k slots st, evs.length ≤ slots →
      streamWorkerBlocking create areaID pid k slots st evs
        = (streamWorker create areaID pid k st evs).2.1 := by
  induction evs with
  | nil => intro create areaID pid k slots st _; rfl
  | cons ev rest ih =>
    intro create areaID pid k slots st h
    simp only [List.length_cons] at h
    cases ev with
    | err m => rfl
    | item d =>
      cases hc : create k d with
      | none =>
        simp only [streamWorkerBlocking, streamWorker, hc]
        exact ih create areaID pid (k + 1) slots st (by omega)
      | some pr =>
        obtain ⟨iid, stored⟩ := pr
        cases slots with
        | zero => omega
        | succ slots' =>
          simp only [streamWorkerBlocking, streamWorker, hc]
          exact ih create areaID pid (k + 1) slots' _ (by omega)

/-- For an uncancelled request with a connected client, the handler's final
store state agrees with the approved `UploadPhotoStream` model (the
forwarder drains the channel, so the worker never blocks). -/
theorem handleStreamPhoto_healthy_state (env : Env) (drained : Nat)
    (areaID : Nat) (imageData mimeType : List Char) (st : St) :
    (handleStreamPhoto env false true drained areaID imageData mimeType st).2
      = (UploadPhotoStream env false areaID imageData mimeType st).2.1 := by
  rcases hlk : env.lookup with _ | _ | _
  · simp [handleStreamPhoto, UploadPhotoStreamSetup, UploadPhotoStream,
      withoutCancel, ctxLookup, hlk]
  · simp [handleStreamPhoto, UploadPhotoStreamSetup, UploadPhotoStream,
      withoutCancel, ctxLookup, hlk]
  · rcases hstrm : env.streaming with _ | _
    · simp [handleStreamPhoto, UploadPhotoStreamSetup, UploadPhotoStream,
        withoutCancel, ctxLookup, hlk, hstrm]
    · rcases hsv : env.saveRes with _ | key
      · simp [handleStreamPhoto, UploadPhotoStreamSetup, UploadPhotoStream,
          withoutCancel, ctxLookup, ctxSave, hlk, hstrm, hsv]
      · rcases hpc : env.photoCreateRes with _ | pid
        · simp [handleStreamPhoto, UploadPhotoStreamSetup, UploadPhotoStream,
            withoutCancel, ctxLookup, ctxSave, ctxPhotoCreate, hlk, hstrm,
            hsv, hpc]
        · rcases har : env.analyzeRes with _ | evs
          · simp [handleStreamPhoto, UploadPhotoStreamSetup, UploadPhotoStream,
              withoutCancel, ctxLookup, ctxSave, ctxPhotoCreate, ctxAnalyze,
              hlk, hstrm, hsv, hpc, har]
          · rcases hdi : env.deleteItemsOk with _ | _
            · simp [handleStreamPhoto, UploadPhotoStreamSetup,
                UploadPhotoStream, withoutCancel, ctxLookup, ctxSave,
                ctxPhotoCreate, ctxAnalyze, ctxDeleteItems, hlk, hstrm, hsv,
                hpc, har, hdi]
            · simp [handleStreamPhoto, UploadPhotoStreamSetup,
                UploadPhotoStream, withoutCancel, ctxLookup, ctxSave,
                ctxPhotoCreate, ctxAnalyze, ctxDeleteItems, ctxItemCreate,
                hlk, hstrm, hsv, hpc, har, hdi]

/-- **C8 (code bug).** At the failing input — a request cancelled right
after Begin returns, the forwarder draining one event before it observes the
cancellation (part_020:139-141), an adapter stream of 20 items, every item
create succeeding — the cancelled run persists only 18 items: the worker
completes 1 + 16 sends to the abandoned out channel, persists the 18th item,
then blocks forever on its send, never reaching items 19-20.  The uncancelled
run persists all 20.  The final persisted set therefore depends on request
cancellation, contradicting the claim, spec §4.3.8, and the code's own
comment (part_020:124-125): `context.WithoutCancel` detaches the store calls
but not the bounded-channel coupling. -/
theorem C8_divergence :
    ((handleStreamPhoto envS true true 1 7 [] ("image/jpeg".data)
        ⟨[], [], []⟩).2).items.length = 18
    ∧ ((handleStreamPhoto envS false true 1 7 [] ("image/jpeg".data)
        ⟨[], [], []⟩).2).items.length = 20
    ∧ (handleStreamPhoto envS true true 1 7 [] ("image/jpeg".data)
          ⟨[], [], []⟩).2
        ≠ (handleStreamPhoto envS false true 1 7 [] ("image/jpeg".data)
          ⟨[], [], []⟩).2 := by
  refine ⟨by decide, by decide, by decide⟩

end Kitchinv
